import Mathlib

/-!
Shallow embedding of the batched VRP state-transition engine of
`tasks/vrp.py`: instance generation (`VehicleRoutingDataset.__init__`),
feasibility masking (`update_mask`), the load/demand transition
(`update_dynamic`) and the tour-length reward (`reward`).

Normalized load/demand values are modelled as exact rationals; the
cast-to-int performed by `.int()` in the source is truncation toward
zero, modelled by `truncInt`.  A batch is a list of per-instance rows,
each row holding the loads row and the demands row of the dynamic
tensor (`dynamic[:, 0]` and `dynamic[:, 1]`).  Points are pairs of
reals and euclidean distance uses `Real.sqrt`.
-/

namespace VRP

/-- Truncation toward zero of a rational number, as performed by the
cast `.int()` of the source on each tensor entry. -/
def truncInt (q : ℚ) : ℤ := if 0 ≤ q then ⌊q⌋ else -⌊-q⌋

/-- One instance of the batched dynamic state: the loads row
(`dynamic[i, 0]`, one entry per node) and the demands row
(`dynamic[i, 1]`, one entry per node, node 0 being the depot). -/
abbrev Row : Type := List ℚ × List ℚ

/-- Integer view of a row of normalized values:
`dint = (max_load * dynamic.data).int()` of `update_mask`. -/
def dints (C : ℕ) (xs : List ℚ) : List ℤ := xs.map (fun q => truncInt ((C : ℚ) * q))

/-- The per-instance part of the batch-wide termination test of
`update_mask`: all customer demands of the row are zero in integer
units (`demands[:, 1:].eq(0)`). -/
def customersDone (C : ℕ) (r : Row) : Bool :=
  ((dints C r.2).drop 1).all (fun z => z == 0)

/-- One row of the mask built by `update_mask` when the batch-wide
termination test fails, for an instance with state `r` whose
previously chosen index is `c`: `new_mask = demands.ne(0)`, then the
depot entry is set from `repeat_home = chosen_idx.ne(0)`, then if
`loads[:, 0].eq(0)` or `demands[:, 1:].sum(1).eq(0)` the depot entry
is forced to 1 and all customer entries to 0. -/
def maskRow (C : ℕ) (r : Row) (c : ℕ) : List Bool :=
  if ((dints C r.1).getD 0 0 == 0) || (((dints C r.2).drop 1).sum == 0) then
    ((dints C r.2).map (fun _ => false)).set 0 true
  else
    ((dints C r.2).map (fun z => z != 0)).set 0 (c != 0)

/-- `update_mask` of `VehicleRoutingDataset`: if
`demands[:, 1:].eq(0).all()` over the whole batch, return the all-zero
mask `demands * 0.`; otherwise build each row with `maskRow`. -/
def update_mask (C : ℕ) (dyn : List Row) (chosen : List ℕ) : List (List Bool) :=
  if dyn.all (fun r => customersDone C r) then
    dyn.map (fun r => r.2.map (fun _ => false))
  else
    (dyn.zip chosen).map (fun p => maskRow C p.1 p.2)

/-- Semantics of `torch.Tensor.masked_scatter_(mask, source)` on flat
lists: entries of `self` at positions where `mask` holds are replaced
by the elements of `source` consumed sequentially from its start;
positions where `mask` is false consume nothing. -/
def maskedScatter : List Bool → List ℚ → List ℚ → List ℚ
  | _, [], _ => []
  | [], xs, _ => xs
  | true :: ms, _ :: xs, s :: ss => s :: maskedScatter ms xs ss
  | true :: ms, x :: xs, [] => x :: maskedScatter ms xs []
  | false :: ms, x :: xs, ss => x :: maskedScatter ms xs ss

/-- The normalized new load computed by `update_dynamic` for one row,
`new_load = clamp(load_int - demand_int, min=0) / max_load`, with the
gathered load and demand read at the chosen index. -/
def newLoadVal (C : ℕ) (r : Row) (c : ℕ) : ℚ :=
  ((max (truncInt ((C : ℚ) * r.1.getD c 0) - truncInt ((C : ℚ) * r.2.getD c 0)) 0 : ℤ) : ℚ)
    / (C : ℚ)

/-- The normalized new demand computed by `update_dynamic` for one
row, `new_demand = clamp(demand_int - load_int, min=0) / max_load`,
before the `masked_scatter_` redistribution. -/
def newDemandRaw (C : ℕ) (r : Row) (c : ℕ) : ℚ :=
  ((max (truncInt ((C : ℚ) * r.2.getD c 0) - truncInt ((C : ℚ) * r.1.getD c 0)) 0 : ℤ) : ℚ)
    / (C : ℚ)

/-- Effect of the customer-visit block of `update_dynamic` on one row
paired with its chosen index, given the value `nd` that the
`masked_scatter_` result holds for this row: visiting rows broadcast
the new load over the whole loads row, scatter `nd` at the chosen
index and overwrite the depot demand slot with `new_load - 1`;
non-visiting rows only receive the (no-op) scatter of `nd` at index
0. -/
def visitPair (C : ℕ) (p : Row × ℕ) (nd : ℚ) : Row × ℕ :=
  if p.2 ≠ 0 then
    ((p.1.1.map (fun _ => newLoadVal C p.1 p.2),
      (p.1.2.set p.2 nd).set 0 (newLoadVal C p.1 p.2 - 1)), p.2)
  else
    ((p.1.1, p.1.2.set p.2 nd), p.2)

/-- Effect of the depot block of `update_dynamic` on one row paired
with its chosen index: rows that chose the depot refill the whole
loads row with 1 and reset the depot demand slot to 0. -/
def depotPair (p : Row × ℕ) : Row × ℕ :=
  if p.2 = 0 then ((p.1.1.map (fun _ => (1 : ℚ)), p.1.2.set 0 0), p.2) else p

/-- The customer-visit block of `update_dynamic`, which runs only when
some instance chose a customer (`if visit.any()`): the gathered
demands column is updated by `masked_scatter_`, which consumes the
batch-wide `new_demand` column sequentially over the visiting rows,
and each row is rewritten by `visitPair`. -/
def visitPhase (C : ℕ) (pairs : List (Row × ℕ)) : List (Row × ℕ) :=
  if pairs.any (fun p => p.2 != 0) then
    List.zipWith (visitPair C) pairs
      (maskedScatter (pairs.map (fun p => p.2 != 0))
        (pairs.map (fun p => p.1.2.getD p.2 0))
        (pairs.map (fun p => newDemandRaw C p.1 p.2)))
  else pairs

/-- `update_dynamic` of `VehicleRoutingDataset`: the customer-visit
block followed by the depot block, the latter running only when some
instance chose the depot (`if depot.any()`). -/
def update_dynamic (C : ℕ) (dyn : List Row) (chosen : List ℕ) : List Row :=
  if (dyn.zip chosen).any (fun p => p.2 == 0) then
    ((visitPhase C (dyn.zip chosen)).map depotPair).map (fun q => q.1)
  else
    (visitPhase C (dyn.zip chosen)).map (fun q => q.1)

/-- Initial dynamic state built by `VehicleRoutingDataset.__init__`
from the integer demand draws of the customer slots: every loads row
is full of `max_load / max_load = 1`, every demands row is the
normalized draws with the depot slot overwritten by 0. -/
def initialDynamic (C : ℕ) (draws : List (List ℕ)) : List Row :=
  draws.map (fun d =>
    (List.replicate (d.length + 1) (1 : ℚ), (0 : ℚ) :: d.map (fun k => (k : ℚ) / (C : ℚ))))

/-- Configuration check and state construction of
`VehicleRoutingDataset.__init__`: the only validation performed is
`if max_load < max_demand: raise ValueError(...)`; the size
parameters are not checked.  The random demand draws are passed in
explicitly. -/
def VehicleRoutingDataset_init (num_samples input_size max_load max_demand : ℕ)
    (draws : List (List ℕ)) : Except String (List Row) :=
  if max_load < max_demand then
    Except.error ":param max_load: must be > max_demand"
  else
    Except.ok (initialDynamic max_load draws)

/-- Euclidean distance between two points, as computed by `reward`:
`sqrt` of the sum over the two coordinates of the squared
differences. -/
noncomputable def pairDist (p q : ℝ × ℝ) : ℝ :=
  Real.sqrt ((p.1 - q.1) ^ 2 + (p.2 - q.2) ^ 2)

/-- Per-instance tour length of `reward`: the chosen indices are
gathered into points, the depot location (node 0) is prepended and
appended (`y = cat((start, tour, start))`), and the distances between
consecutive points (`y[:, :-1] - y[:, 1:]`) are summed. -/
noncomputable def rewardOne (s : List (ℝ × ℝ)) (idx : List ℕ) : ℝ :=
  let y := s.getD 0 (0, 0) :: idx.map (fun i => s.getD i (0, 0)) ++ [s.getD 0 (0, 0)]
  (List.zipWith pairDist y y.tail).sum

/-- `reward` of `tasks/vrp.py`: the per-instance tour lengths over the
batch. -/
noncomputable def reward (statics : List (List (ℝ × ℝ))) (tours : List (List ℕ)) : List ℝ :=
  List.zipWith rewardOne statics tours

/-- Relation between two rows that agree on the loads row and on every
demand slot except possibly the depot marker slot
(`remaining_demand[0]`). -/
def markerSim (r s : Row) : Prop :=
  r.1 = s.1 ∧ r.2.length = s.2.length ∧ r.2.drop 1 = s.2.drop 1

/-- Rows of the dynamic state whose loads row is constant across all
node slots. -/
def constLoads (r : Row) : Prop := ∃ v, r.1 = List.replicate r.1.length v

/-- Sum of the euclidean distances between every pair of consecutive
points of a sequence, written as the specification describes it:
recursively over adjacent pairs. -/
noncomputable def consecSum : List (ℝ × ℝ) → ℝ
  | p :: q :: rest => pairDist p q + consecSum (q :: rest)
  | _ => 0

/- ## Helper lemmas -/

lemma getD_map_lt {α β : Type} (f : α → β) (l : List α) {i : ℕ} (h : i < l.length)
    (d : α) (d2 : β) : (l.map f).getD i d2 = f (l.getD i d) := by
  rw [List.getD_eq_getElem _ _ (by simpa using h), List.getD_eq_getElem _ _ h]
  simp

lemma getD_zip_lt {α β : Type} (l1 : List α) (l2 : List β) {i : ℕ}
    (h1 : i < l1.length) (h2 : i < l2.length) (d1 : α) (d2 : β) :
    (l1.zip l2).getD i (d1, d2) = (l1.getD i d1, l2.getD i d2) := by
  induction l1 generalizing l2 i with
  | nil => simp at h1
  | cons a t ih =>
    cases l2 with
    | nil => simp at h2
    | cons b t2 =>
      cases i with
      | zero => simp [List.zip_cons_cons]
      | succ j =>
        simp only [List.zip_cons_cons, List.getD_cons_succ]
        exact ih t2 (by simpa using h1) (by simpa using h2)

lemma getD_mem {α : Type} (l : List α) {i : ℕ} (h : i < l.length) (d : α) :
    l.getD i d ∈ l := by
  rw [List.getD_eq_getElem _ _ h]
  exact List.getElem_mem h

lemma sum_int_zero_of_nonneg {l : List ℤ} (hpos : ∀ z ∈ l, 0 ≤ z) (hsum : l.sum = 0) :
    ∀ z ∈ l, z = 0 := by
  induction l with
  | nil => simp
  | cons a t ih =>
    have ha : 0 ≤ a := hpos a (by simp)
    have ht : 0 ≤ t.sum := List.sum_nonneg (fun x hx => hpos x (by simp [hx]))
    have hsum2 : a + t.sum = 0 := by simpa using hsum
    have ha0 : a = 0 := by omega
    have ht0 : t.sum = 0 := by omega
    intro z hz
    rcases List.mem_cons.mp hz with h | h
    · exact h ▸ ha0
    · exact ih (fun x hx => hpos x (by simp [hx])) ht0 z h

lemma set_zero_congr {α : Type} {a b : List α} (hlen : a.length = b.length)
    (htl : a.drop 1 = b.drop 1) (v : α) : a.set 0 v = b.set 0 v := by
  cases a with
  | nil =>
    cases b with
    | nil => rfl
    | cons x t => simp at hlen
  | cons x t =>
    cases b with
    | nil => simp at hlen
    | cons y t2 =>
      simp only [List.drop_one, List.tail_cons] at htl
      simp [htl]

lemma exists_of_mem_zipWith {α β γ : Type} {f : α → β → γ} {l1 : List α} {l2 : List β}
    {x : γ} (h : x ∈ List.zipWith f l1 l2) : ∃ a ∈ l1, ∃ b ∈ l2, x = f a b := by
  induction l1 generalizing l2 with
  | nil => simp at h
  | cons a t ih =>
    cases l2 with
    | nil => simp at h
    | cons b t2 =>
      simp only [List.zipWith_cons_cons, List.mem_cons] at h
      rcases h with h | h
      · exact ⟨a, by simp, b, by simp, h⟩
      · obtain ⟨a2, ha2, b2, hb2, hx⟩ := ih h
        exact ⟨a2, by simp [ha2], b2, by simp [hb2], hx⟩

lemma update_mask_row (C : ℕ) {dyn : List Row} {chosen : List ℕ} {i : ℕ}
    (hi : i < dyn.length) (hic : i < chosen.length)
    (hlate : dyn.all (fun r => customersDone C r) = false) :
    (update_mask C dyn chosen).getD i [] =
      maskRow C (dyn.getD i ([], [])) (chosen.getD i 0) := by
  have hiz : i < (dyn.zip chosen).length := by
    simp only [List.length_zip]
    omega
  simp only [update_mask, hlate, Bool.false_eq_true, if_false]
  rw [getD_map_lt _ _ hiz (([], []), 0), getD_zip_lt dyn chosen hi hic]

lemma maskRow_has_true (C : ℕ) (r : Row) (c : ℕ) (hne : r.2 ≠ []) :
    true ∈ maskRow C r c := by
  obtain ⟨z0, zs, hd⟩ := List.exists_cons_of_ne_nil
    (show dints C r.2 ≠ [] by simp [dints, hne])
  simp only [maskRow, hd, List.map_cons, List.set_cons_zero, List.drop_succ_cons,
    List.drop_zero]
  split
  · exact List.mem_cons_self _ _
  · next hcond =>
    have hsum : zs.sum ≠ 0 := by
      simp only [Bool.or_eq_true, beq_iff_eq, not_or] at hcond
      exact hcond.2
    have hex : ∃ z ∈ zs, z ≠ 0 := by
      by_contra hno
      push_neg at hno
      exact hsum (List.sum_eq_zero hno)
    obtain ⟨z, hz, hz0⟩ := hex
    have h2 : (z != 0) = true := by simpa using hz0
    exact List.mem_cons_of_mem _ (h2 ▸ List.mem_map_of_mem (fun w => w != 0) hz)

lemma dints_ne_nil {C : ℕ} {xs : List ℚ} (h : xs ≠ []) : dints C xs ≠ [] := by
  cases xs with
  | nil => exact absurd rfl h
  | cons a t => simp [dints]

lemma all_eq_false_of_mem {α : Type} {p : α → Bool} {l : List α} {x : α}
    (hx : x ∈ l) (hpx : p x = false) : l.all p = false := by
  cases h : l.all p
  · rfl
  · have := List.all_eq_true.mp h x hx
    rw [hpx] at this
    exact absurd this (by simp)

/-- Claim C1, amended: the mask row returned by `update_mask` for an
instance is all-zero if and only if every instance of the batch has
all customer remaining-demands equal to zero in integer units — the
termination test `demands[:, 1:].eq(0).all()` is batch-wide, so a
finished instance in a partially finished batch receives a
depot-only row, not an all-zero row. -/
theorem update_mask_row_all_zero_iff (C : ℕ) (dyn : List Row) (chosen : List ℕ)
    (hlen : dyn.length = chosen.length) {i : ℕ} (hi : i < dyn.length)
    (hne : ∀ r ∈ dyn, r.2 ≠ []) :
    (((update_mask C dyn chosen).getD i []).all (fun b => b == false) = true) ↔
      (∀ r ∈ dyn, customersDone C r = true) := by
  by_cases hall : dyn.all (fun r => customersDone C r) = true
  · constructor
    · intro _
      exact List.all_eq_true.mp hall
    · intro _
      simp only [update_mask, hall, if_true]
      rw [getD_map_lt (fun r : Row => r.2.map (fun _ => false)) dyn hi ([], [])]
      simp
  · have hfalse : dyn.all (fun r => customersDone C r) = false := by
      cases h : dyn.all (fun r => customersDone C r)
      · rfl
      · exact absurd h hall
    constructor
    · intro hz
      exfalso
      rw [update_mask_row C hi (hlen ▸ hi) hfalse] at hz
      have htrue := maskRow_has_true C (dyn.getD i ([], [])) (chosen.getD i 0)
        (hne _ (getD_mem dyn hi ([], [])))
      have := List.all_eq_true.mp hz _ htrue
      simp at this
    · intro hdone
      exact absurd (List.all_eq_true.mpr hdone) hall

/-- Claim C1, counterexample: a two-instance batch where instance 0
has all customer demands zero while instance 1 does not; the mask row
of instance 0 has a 1 at the depot, so it is not all-zero even though
all customer remaining-demands of that instance are zero. -/
theorem update_mask_not_all_zero_for_finished_instance :
    customersDone 20 ([(1 : ℚ), 1, 1], [(0 : ℚ), 0, 0]) = true ∧
      ((update_mask 20 [([1, 1, 1], [0, 0, 0]), ([1, 1, 1], [0, 3/20, 0])]
          [1, 1]).getD 0 []).getD 0 false = true := by
  constructor
  · norm_num [customersDone, dints, truncInt]
  · norm_num [update_mask, customersDone, maskRow, dints, truncInt]

/-- Claim C1, witness for the amended theorem at a concrete batch. -/
theorem update_mask_row_all_zero_iff_witness :
    (((update_mask 20 [([(1 : ℚ), 1, 1], [(0 : ℚ), 0, 0])] [1]).getD 0 []).all
        (fun b => b == false) = true) ↔
      (∀ r ∈ [([(1 : ℚ), 1, 1], [(0 : ℚ), 0, 0])], customersDone 20 r = true) :=
  update_mask_row_all_zero_iff 20 [([1, 1, 1], [0, 0, 0])] [1] (by simp)
    (by simp) (by simp)

/-- Claim C3: in a batch where the batch-wide termination test has
not fired, an instance whose load is zero in integer units, or whose
customer remaining-demands sum to zero, gets a mask row with the
depot forced legal and every customer forced illegal. -/
theorem update_mask_forces_depot (C : ℕ) (dyn : List Row) (chosen : List ℕ)
    (hlen : dyn.length = chosen.length) {i : ℕ} (hi : i < dyn.length)
    (hne : (dyn.getD i ([], [])).2 ≠ [])
    (hunfinished : ¬ ∀ r ∈ dyn, customersDone C r = true)
    (hcomb : (dints C (dyn.getD i ([], [])).1).getD 0 0 = 0 ∨
      ((dints C (dyn.getD i ([], [])).2).drop 1).sum = 0) :
    ((update_mask C dyn chosen).getD i []).getD 0 false = true ∧
      ∀ j, 1 ≤ j → ((update_mask C dyn chosen).getD i []).getD j false = false := by
  have hfalse : dyn.all (fun r => customersDone C r) = false := by
    cases h : dyn.all (fun r => customersDone C r)
    · rfl
    · exact absurd (List.all_eq_true.mp h) hunfinished
  rw [update_mask_row C hi (hlen ▸ hi) hfalse]
  obtain ⟨z0, zs, hd⟩ := List.exists_cons_of_ne_nil (dints_ne_nil hne)
  have hcombb : (((dints C (dyn.getD i ([], [])).1).getD 0 0 == 0) ||
      (((dints C (dyn.getD i ([], [])).2).drop 1).sum == 0)) = true := by
    rcases hcomb with h | h
    · rw [h]
      simp
    · rw [h]
      simp
  rw [hd] at hcombb
  simp only [maskRow, hd]
  rw [if_pos hcombb]
  simp only [List.map_cons, List.set_cons_zero]
  refine ⟨rfl, ?_⟩
  intro j hj
  cases j with
  | zero => omega
  | succ k =>
    simp only [List.getD_cons_succ, List.getD_eq_getElem?_getD, List.getElem?_map]
    cases h : zs[k]? <;> simp [h]

/-- Claim C3, witness: a one-instance batch with zero integer load
and a remaining customer demand is forced back to the depot. -/
theorem update_mask_forces_depot_witness :
    ((update_mask 20 [([(0 : ℚ), 0, 0], [(0 : ℚ), 3/20, 0])] [1]).getD 0 []).getD 0
        false = true ∧
      ∀ j, 1 ≤ j →
        ((update_mask 20 [([(0 : ℚ), 0, 0], [(0 : ℚ), 3/20, 0])] [1]).getD 0 []).getD j
          false = false :=
  update_mask_forces_depot 20 [([0, 0, 0], [0, 3/20, 0])] [1] (by simp) (by simp)
    (by simp)
    (by
      intro h
      have := h ([0, 0, 0], [0, 3/20, 0]) (by simp)
      norm_num [customersDone, dints, truncInt] at this)
    (Or.inl (by norm_num [dints, truncInt]))

/-- Claim C4: if an instance previously chose the depot, its integer
load is positive, and it has a customer with nonzero (nonnegative)
remaining demand, then the depot entry of its mask row is zero. -/
theorem update_mask_depot_illegal_after_depot (C : ℕ) (dyn : List Row) (chosen : List ℕ)
    (hlen : dyn.length = chosen.length) {i : ℕ} (hi : i < dyn.length)
    (hch : chosen.getD i 0 = 0)
    (hload : 0 < (dints C (dyn.getD i ([], [])).1).getD 0 0)
    (hpos : ∀ z ∈ (dints C (dyn.getD i ([], [])).2).drop 1, 0 ≤ z)
    (hsome : ∃ z ∈ (dints C (dyn.getD i ([], [])).2).drop 1, z ≠ 0) :
    ((update_mask C dyn chosen).getD i []).getD 0 false = false := by
  obtain ⟨z, hz, hz0⟩ := hsome
  have hnotdone : customersDone C (dyn.getD i ([], [])) = false := by
    cases h : customersDone C (dyn.getD i ([], []))
    · rfl
    · exact absurd (by simpa using List.all_eq_true.mp h z hz) hz0
  have hfalse : dyn.all (fun r => customersDone C r) = false :=
    all_eq_false_of_mem (getD_mem dyn hi ([], [])) hnotdone
  rw [update_mask_row C hi (hlen ▸ hi) hfalse]
  have hsum : ((dints C (dyn.getD i ([], [])).2).drop 1).sum ≠ 0 := by
    intro h
    exact hz0 (sum_int_zero_of_nonneg hpos h z hz)
  have hcond : (((dints C (dyn.getD i ([], [])).1).getD 0 0 == 0) ||
      (((dints C (dyn.getD i ([], [])).2).drop 1).sum == 0)) = false := by
    simp only [Bool.or_eq_false_iff, beq_eq_false_iff_ne]
    exact ⟨by omega, hsum⟩
  have hne : dints C (dyn.getD i ([], [])).2 ≠ [] := by
    intro h
    rw [h] at hz
    simp at hz
  obtain ⟨z0, zs, hd⟩ := List.exists_cons_of_ne_nil hne
  rw [hd] at hcond
  simp only [maskRow, hd]
  rw [if_neg (by rw [hcond]; simp), hch]
  simp only [List.map_cons, List.set_cons_zero]
  rfl

/-- Claim C4, witness: after a depot visit with full load and a
customer still demanding, the depot entry of the mask row is zero. -/
theorem update_mask_depot_illegal_after_depot_witness :
    ((update_mask 20 [([(1 : ℚ), 1, 1], [(0 : ℚ), 3/20, 0])] [0]).getD 0 []).getD 0
        false = false :=
  update_mask_depot_illegal_after_depot 20 [([1, 1, 1], [0, 3/20, 0])] [0] (by simp)
    (by simp) (by simp) (by norm_num [dints, truncInt])
    (by
      intro z hz
      norm_num [dints, truncInt] at hz
      rcases hz with h | h <;> omega)
    (by
      refine ⟨3, ?_, by omega⟩
      norm_num [dints, truncInt])

lemma dints_drop_one (C : ℕ) (xs : List ℚ) :
    (dints C xs).drop 1 = dints C (xs.drop 1) := by
  simp [dints, (List.map_drop _ _ _).symm]

lemma customersDone_sim {C : ℕ} {r s : Row} (h : markerSim r s) :
    customersDone C r = customersDone C s := by
  unfold customersDone
  rw [dints_drop_one, dints_drop_one, h.2.2]

lemma maskRow_sim {C : ℕ} {r s : Row} {c : ℕ} (h : markerSim r s) :
    maskRow C r c = maskRow C s c := by
  obtain ⟨h1, hlen, hdrop⟩ := h
  have hd : (dints C r.2).drop 1 = (dints C s.2).drop 1 := by
    rw [dints_drop_one, dints_drop_one, hdrop]
  have hl : (dints C r.2).length = (dints C s.2).length := by
    simp [dints, hlen]
  have hset : ∀ (f : ℤ → Bool) (v : Bool),
      ((dints C r.2).map f).set 0 v = ((dints C s.2).map f).set 0 v := by
    intro f v
    apply set_zero_congr
    · simp [hl]
    · rw [← List.map_drop, ← List.map_drop, hd]
  unfold maskRow
  rw [h1, hd]
  split
  · exact hset _ _
  · exact hset _ _

lemma all_customersDone_sim {C : ℕ} {dyn dyn2 : List Row}
    (h : List.Forall₂ markerSim dyn dyn2) :
    dyn.all (fun r => customersDone C r) = dyn2.all (fun r => customersDone C r) := by
  induction h with
  | nil => rfl
  | cons hrs htail ih => simp [List.all_cons, customersDone_sim hrs, ih]

lemma early_out_sim {dyn dyn2 : List Row} (h : List.Forall₂ markerSim dyn dyn2) :
    dyn.map (fun r => r.2.map (fun _ => false)) =
      dyn2.map (fun r => r.2.map (fun _ => false)) := by
  induction h with
  | nil => rfl
  | cons hrs htail ih =>
    simp only [List.map_cons, ih]
    congr 1
    rw [List.map_const', List.map_const', hrs.2.1]

lemma zip_map_maskRow_sim {C : ℕ} {dyn dyn2 : List Row} {chosen : List ℕ}
    (h : List.Forall₂ markerSim dyn dyn2) :
    (dyn.zip chosen).map (fun p => maskRow C p.1 p.2) =
      (dyn2.zip chosen).map (fun p => maskRow C p.1 p.2) := by
  induction h generalizing chosen with
  | nil => rfl
  | cons hrs htail ih =>
    cases chosen with
    | nil => rfl
    | cons c cs => simp [List.zip_cons_cons, maskRow_sim hrs, ih]

/-- Claim C8: two batch states that agree on every loads row and on
every customer demand slot, and may differ arbitrarily in the depot
marker slot `remaining_demand[0]` of each instance, produce identical
masks under `update_mask` for the same previously chosen indices: the
marker slot is never read by the masking logic. -/
theorem update_mask_ignores_depot_marker (C : ℕ) (dyn dyn2 : List Row)
    (chosen : List ℕ) (h : List.Forall₂ markerSim dyn dyn2) :
    update_mask C dyn chosen = update_mask C dyn2 chosen := by
  unfold update_mask
  rw [all_customersDone_sim h]
  by_cases hall : dyn2.all (fun r => customersDone C r) = true
  · rw [if_pos hall, if_pos hall]
    exact early_out_sim h
  · rw [if_neg hall, if_neg hall]
    exact zip_map_maskRow_sim h

/-- Claim C8, witness: changing only the depot marker slot of a
one-instance batch leaves the mask unchanged. -/
theorem update_mask_ignores_depot_marker_witness :
    update_mask 20 [([(1 : ℚ), 1, 1], [(0 : ℚ), 3/20, 7/20])] [1] =
      update_mask 20 [([(1 : ℚ), 1, 1], [(1/2 : ℚ), 3/20, 7/20])] [1] :=
  update_mask_ignores_depot_marker 20 _ _ [1]
    (List.Forall₂.cons ⟨rfl, rfl, rfl⟩ List.Forall₂.nil)

/-- Claim C2, code bug: in a two-instance batch whose first instance
chose the depot and whose second chose customer 1 with integer load 2
and integer demand 7, the claimed new remaining demand at the chosen
node is `(7 - min 2 7) / 20 = 1/4`, but `update_dynamic` writes `0`
there: `masked_scatter_` consumes the batch-wide `new_demand` column
sequentially, so the visiting instance receives the value computed
for the depot-visiting instance. -/
theorem update_dynamic_wrong_demand_write :
    (((update_dynamic 20 [([1, 1, 1], [0, 1/4, 1/4]),
        ([1/10, 1/10, 1/10], [0, 7/20, 0])] [0, 1]).getD 1 ([], [])).2).getD 1 0 = 0 ∧
      ((truncInt ((20 : ℚ) * (7/20)) -
          min (truncInt ((20 : ℚ) * (1/10))) (truncInt ((20 : ℚ) * (7/20))) : ℤ) : ℚ)
          / 20 = 1/4 ∧
      (0 : ℚ) ≠ 1/4 := by
  refine ⟨?_, ?_, by norm_num⟩
  · norm_num [update_dynamic, visitPhase, maskedScatter, visitPair, depotPair,
      newLoadVal, newDemandRaw, truncInt]
  · norm_num [truncInt]

/-- Claim C9, code bug: two batches with identical second instances
and identical chosen indices, differing only in the first instance,
give the second instance different demand rows after
`update_dynamic` — the update is not applied independently per
instance, because `masked_scatter_` consumes the `new_demand` column
sequentially from the start of the batch. -/
theorem update_dynamic_cross_instance_dependence :
    (((update_dynamic 20 [([1/4, 1/4, 1/4], [11/20, 1/4, 1/4]),
        ([1/10, 1/10, 1/10], [0, 7/20, 0])] [0, 1]).getD 1 ([], [])).2).getD 1 0 ≠
      (((update_dynamic 20 [([1, 1, 1], [0, 1/4, 1/4]),
        ([1/10, 1/10, 1/10], [0, 7/20, 0])] [0, 1]).getD 1 ([], [])).2).getD 1 0 := by
  norm_num [update_dynamic, visitPhase, maskedScatter, visitPair, depotPair,
    newLoadVal, newDemandRaw, truncInt]

lemma any_false_mem {α : Type} {p : α → Bool} {l : List α} (h : ¬ l.any p = true)
    {x : α} (hx : x ∈ l) : p x = false := by
  cases hpx : p x
  · rfl
  · exact absurd (List.any_eq_true.mpr ⟨x, hx, hpx⟩) h

lemma visitPhase_mem {C : ℕ} {pairs : List (Row × ℕ)} {q : Row × ℕ}
    (hq : q ∈ visitPhase C pairs) :
    (∃ p ∈ pairs, ∃ nd, q = visitPair C p nd) ∨
      (q ∈ pairs ∧ ¬ pairs.any (fun p => p.2 != 0) = true) := by
  unfold visitPhase at hq
  split at hq
  · obtain ⟨p, hp, nd, _, rfl⟩ := exists_of_mem_zipWith hq
    exact Or.inl ⟨p, hp, nd, rfl⟩
  · next h => exact Or.inr ⟨hq, h⟩

lemma visitPair_snd (C : ℕ) (p : Row × ℕ) (nd : ℚ) : (visitPair C p nd).2 = p.2 := by
  unfold visitPair
  split <;> rfl

lemma visitPair_loads_const {C : ℕ} {p : Row × ℕ} (h : p.2 ≠ 0) (nd : ℚ) :
    constLoads (visitPair C p nd).1 := by
  refine ⟨newLoadVal C p.1 p.2, ?_⟩
  simp [visitPair, h, List.map_const']

lemma depotPair_loads_const {q : Row × ℕ} (h : q.2 = 0) :
    constLoads (depotPair q).1 := by
  refine ⟨1, ?_⟩
  simp [depotPair, h, List.map_const']

lemma depotPair_of_ne {q : Row × ℕ} (h : q.2 ≠ 0) : depotPair q = q := by
  simp [depotPair, h]

/-- Claim C10: every loads row of the initial dynamic state holds the
same value in all node slots, and every loads row output by
`update_dynamic` holds the same value in all node slots (customer
visits broadcast the new load over the whole row, depot visits set
the whole row to 1), which is why reading only `loads[:, 0]` in
`update_mask` is sound. -/
theorem loads_rows_uniform (C : ℕ) :
    (∀ draws : List (List ℕ),
      (initialDynamic C draws).Forall constLoads) ∧
    (∀ (dyn : List Row) (chosen : List ℕ),
      (update_dynamic C dyn chosen).Forall constLoads) := by
  constructor
  · intro draws
    rw [List.forall_iff_forall_mem]
    intro r hr
    simp only [initialDynamic, List.mem_map] at hr
    obtain ⟨d, _, rfl⟩ := hr
    exact ⟨1, by simp⟩
  · intro dyn chosen
    rw [List.forall_iff_forall_mem]
    intro r hr
    unfold update_dynamic at hr
    split at hr
    · rw [List.mem_map] at hr
      obtain ⟨q, hq, rfl⟩ := hr
      rw [List.mem_map] at hq
      obtain ⟨q2, hq2, rfl⟩ := hq
      by_cases h2 : q2.2 = 0
      · exact depotPair_loads_const h2
      · rw [depotPair_of_ne h2]
        rcases visitPhase_mem hq2 with ⟨p, hp, nd, rfl⟩ | ⟨hmem, hnv⟩
        · exact visitPair_loads_const (by rw [← visitPair_snd C p nd]; exact h2) nd
        · exact absurd (by simpa using any_false_mem hnv hmem) h2
    · next hdep =>
      rw [List.mem_map] at hr
      obtain ⟨q, hq, rfl⟩ := hr
      rcases visitPhase_mem hq with ⟨p, hp, nd, rfl⟩ | ⟨hmem, hnv⟩
      · have hp0 : p.2 ≠ 0 := by simpa using any_false_mem hdep hp
        exact visitPair_loads_const hp0 nd
      · have h1 : q.2 ≠ 0 := by simpa using any_false_mem hdep hmem
        have h2 : q.2 = 0 := by simpa using any_false_mem hnv hmem
        exact absurd h2 h1

lemma pairDist_comm (p q : ℝ × ℝ) : pairDist p q = pairDist q p := by
  unfold pairDist
  congr 1
  ring

lemma consecSum_eq_zipWith (l : List (ℝ × ℝ)) :
    consecSum l = (List.zipWith pairDist l l.tail).sum := by
  induction l with
  | nil => simp [consecSum]
  | cons p rest ih =>
    cases rest with
    | nil => simp [consecSum]
    | cons q rest2 => simp [consecSum, ih]

/-- Claim C6: `reward` computes per instance the sum of the euclidean
distances between consecutive points of the tour sequence with the
depot location prepended and appended, and a tour consisting of the
single customer `c` yields twice the distance between the depot
location and that customer location. -/
theorem reward_consecutive_sum :
    (∀ (s : List (ℝ × ℝ)) (idx : List ℕ),
      rewardOne s idx = consecSum
        (s.getD 0 (0, 0) :: idx.map (fun i => s.getD i (0, 0)) ++ [s.getD 0 (0, 0)])) ∧
    (∀ (s : List (ℝ × ℝ)) (c : ℕ),
      reward [s] [[c]] = [2 * pairDist (s.getD 0 (0, 0)) (s.getD c (0, 0))]) := by
  constructor
  · intro s idx
    rw [rewardOne, consecSum_eq_zipWith]
  · intro s c
    simp [reward, rewardOne]
    rw [pairDist_comm]
    ring

/-- Claim C7, counterexample: generation with batch size 0 — a
non-positive batch parameter — succeeds and returns an empty dataset
instead of failing; the constructor only validates
`max_load < max_demand`. -/
theorem init_succeeds_on_zero_batch :
    VehicleRoutingDataset_init 0 5 20 9 [] = Except.ok [] := rfl

/-- Claim C7, amended: `VehicleRoutingDataset.__init__` raises its
configuration error exactly when `max_load < max_demand`; the size
parameters are never validated, and the per-step operations of the
embedding are total functions. -/
theorem init_error_iff (num_samples input_size max_load max_demand : ℕ)
    (draws : List (List ℕ)) :
    (∃ e, VehicleRoutingDataset_init num_samples input_size max_load max_demand draws =
      Except.error e) ↔ max_load < max_demand := by
  by_cases h : max_load < max_demand
  · simp [VehicleRoutingDataset_init, h]
  · simp [VehicleRoutingDataset_init, h]

end VRP
